import Mathlib

/-!
Verification of the naive-Bayes spam detector (src/preprocessing.py and
src/detector.py) against its natural-language specification.

The Python code is shallowly embedded: strings stay Lean strings, Python
floats become exact rationals, Python dicts become association lists or
(for the word-count dictionary viewed pointwise) Option-valued functions,
and the fallible variant of the probability estimator returns Option to
record where Python would raise ZeroDivisionError.
-/

namespace SpamDetector

/-- Embedding of preprocessing.clean_msg: every non-alphabetic character is
replaced by a space, preserving length. -/
def clean_msg (msg : String) : String :=
  String.mk (msg.data.map (fun c => if c.isAlpha then c else ' '))

/-- Helper for the embedding of Python str.split with no argument: split a
character list on runs of whitespace, discarding empty chunks. The
accumulator holds the current chunk reversed. -/
def split_ws_aux : List Char → List Char → List (List Char)
  | [], acc => if acc = [] then [] else [acc.reverse]
  | c :: rest, acc =>
    if c.isWhitespace then
      if acc = [] then split_ws_aux rest []
      else acc.reverse :: split_ws_aux rest []
    else split_ws_aux rest (c :: acc)

/-- Embedding of Python str.split (no separator): whitespace-separated
chunks, no empties. -/
def split_ws (cs : List Char) : List (List Char) :=
  split_ws_aux cs []

/-- The list of lowercased tokens of a message, in order, with multiplicity:
the list comprehension inside preprocessing.split_words before the set is
taken. -/
def word_list (msg : String) : List String :=
  (split_ws msg.data).map (fun cs => String.mk (cs.map Char.toLower))

/-- Embedding of preprocessing.split_words: the set of distinct lowercased
tokens, modelled as the deduplicated token list. -/
def split_words (msg : String) : List String :=
  (word_list msg).dedup

/-- Embedding of preprocessing.split_line: the part before the first tab is
the annotation, the part after it is the body with every remaining tab
removed by str.replace with the empty string; none when no tab exists
(Python str.index raises ValueError there). -/
def split_line (line : String) : Option (String × String) :=
  (line.data.findIdx? (fun c => c = '\t')).map (fun i =>
    (String.mk (line.data.take i),
     String.mk ((line.data.drop (i + 1)).filter (fun c => ¬ c = '\t'))))

/-- Embedding of preprocessing.count_ham_and_spam: lengths of the two
label-filtered sublists. -/
def count_ham_and_spam (ann_msg_list : List (String × String)) : ℕ × ℕ :=
  ((ann_msg_list.filter (fun am => am.1 == "ham")).length,
   (ann_msg_list.filter (fun am => am.1 == "spam")).length)

/-- Embedding of preprocessing.count_words viewed pointwise: the Counter
built by summing, per message, the multiset of the message's distinct
words. Each message contributes the count of the word in its deduplicated
token list. -/
def count_words (msg_list : List String) (w : String) : ℕ :=
  (msg_list.map (fun m => (split_words (clean_msg m)).count w)).sum

/-- Whether a word is a key of the Counter returned by
preprocessing.count_words, i.e. occurs in some message of the list. -/
def in_vocab (msg_list : List String) (w : String) : Bool :=
  msg_list.any (fun m => w ∈ split_words (clean_msg m))

/-- Embedding of preprocessing.count_words_in_ham_and_spam viewed pointwise:
the dictionary over the union of the two vocabularies whose value at a word
is the pair of per-class document-presence counts, defaulting to 0 for the
class that never saw the word; none for words outside both vocabularies. -/
def count_words_in_ham_and_spam (ann_msg_list : List (String × String)) (w : String) :
    Option (ℕ × ℕ) :=
  let ham_messages := (ann_msg_list.filter (fun am => am.1 == "ham")).map Prod.snd
  let spam_messages := (ann_msg_list.filter (fun am => am.1 == "spam")).map Prod.snd
  if in_vocab ham_messages w || in_vocab spam_messages w then
    some (count_words ham_messages w, count_words spam_messages w)
  else
    none

/-- Embedding of detector.estimate_probabilities over exact rationals.
Word counts are an association list of (word, (n_word_ham, n_word_spam))
items; the result pairs the per-word conditional-probability list with the
class priors. Mirrors the Python mutation of n_ham and n_spam after n_tot
is computed and before any division. -/
def estimate_probabilities (word_counts : List (String × ℕ × ℕ)) (n_classes : ℕ × ℕ)
    (alpha : ℚ) : List (String × ℚ × ℚ) × (ℚ × ℚ) :=
  let n_ham : ℚ := n_classes.1
  let n_spam : ℚ := n_classes.2
  let n_tot : ℚ := n_ham + n_spam + 2 * alpha
  let n_ham : ℚ := if alpha > 0 then n_ham + alpha else n_ham
  let n_spam : ℚ := if alpha > 0 then n_spam + alpha else n_spam
  let p_ham := n_ham / n_tot
  let p_spam := n_spam / n_tot
  let p_word_knowing_class := word_counts.map (fun e =>
    (e.1, ((e.2.1 + alpha) / n_ham, (e.2.2 + alpha) / n_spam)))
  (p_word_knowing_class, (p_ham, p_spam))

/-- Guarded rational division, recording Python ZeroDivisionError as none. -/
def div? (a b : ℚ) : Option ℚ :=
  if b = 0 then none else some (a / b)

/-- Fallible embedding of detector.estimate_probabilities: identical to
estimate_probabilities but every division Python performs is guarded, so
the result is none exactly when the Python call raises ZeroDivisionError.
Divisions occur in Python order: prior divisions first, then the per-word
divisions in dictionary order. -/
def estimate_probabilities_checked (word_counts : List (String × ℕ × ℕ))
    (n_classes : ℕ × ℕ) (alpha : ℚ) :
    Option (List (String × ℚ × ℚ) × (ℚ × ℚ)) := do
  let n_ham0 : ℚ := n_classes.1
  let n_spam0 : ℚ := n_classes.2
  let n_tot : ℚ := n_ham0 + n_spam0 + 2 * alpha
  let n_ham : ℚ := if alpha > 0 then n_ham0 + alpha else n_ham0
  let n_spam : ℚ := if alpha > 0 then n_spam0 + alpha else n_spam0
  let p_ham ← div? n_ham n_tot
  let p_spam ← div? n_spam n_tot
  let p_word_knowing_class ← word_counts.mapM (fun e => do
    let p_word_ham ← div? (e.2.1 + alpha) n_ham
    let p_word_spam ← div? (e.2.2 + alpha) n_spam
    pure (e.1, (p_word_ham, p_word_spam)))
  pure (p_word_knowing_class, (p_ham, p_spam))

/-- One loop iteration of detector.classify_message: look the word up in
the word-probability list, defaulting to the neutral pair (1, 1) for
unseen words, and multiply it into the running per-class products. -/
def word_prod_step (p_word_class : List (String × ℚ × ℚ)) (acc : ℚ × ℚ) (w : String) :
    ℚ × ℚ :=
  let p := (List.lookup w p_word_class).getD (1, 1)
  (acc.1 * p.1, acc.2 * p.2)

/-- The running per-class word-probability products of
detector.classify_message: fold over the message's distinct words. -/
def msg_word_prod (message : String) (p_word_class : List (String × ℚ × ℚ)) : ℚ × ℚ :=
  (split_words (clean_msg message)).foldl (word_prod_step p_word_class) (1, 1)

/-- Embedding of detector.classify_message: multiply the word products by
the class priors and renormalize by the sum of the two joints. -/
def classify_message (message : String) (prob_info : List (String × ℚ × ℚ) × (ℚ × ℚ)) :
    ℚ × ℚ :=
  let p := msg_word_prod message prob_info.1
  let p_msg_ham_p_ham := p.1 * prob_info.2.1
  let p_msg_spam_p_spam := p.2 * prob_info.2.2
  let p_msg_tot := p_msg_ham_p_ham + p_msg_spam_p_spam
  (p_msg_ham_p_ham / p_msg_tot, p_msg_spam_p_spam / p_msg_tot)

/-- Embedding of SpamDetector.predict on a single message: threshold the
ham posterior strictly at one half. -/
def predict (message : String) (prob_info : List (String × ℚ × ℚ) × (ℚ × ℚ)) : String :=
  if (classify_message message prob_info).1 > 1 / 2 then "ham" else "spam"

/-- Embedding of SpamDetector.predict_word_proba: over the message's
distinct words, keep those present in the fitted word-count dictionary and
map each to the pair of smoothed per-word class proportions, whose
denominator is the smoothed word total, not a class count. -/
def predict_word_proba (word_counts : List (String × ℕ × ℕ)) (alpha : ℚ)
    (message : String) : List (String × ℚ × ℚ) :=
  (split_words (clean_msg message)).filterMap (fun w =>
    match List.lookup w word_counts with
    | none => none
    | some nw =>
      let n_w_ham : ℚ := if alpha > 0 then nw.1 + alpha else nw.1
      let n_w_spam : ℚ := if alpha > 0 then nw.2 + alpha else nw.2
      let n_w_tot := n_w_ham + n_w_spam
      some (w, (n_w_ham / n_w_tot, n_w_spam / n_w_tot)))

/-- The normalized class prior of the specification: each prior component
divided by the sum of the two. -/
def normalized_prior (p_class : ℚ × ℚ) : ℚ × ℚ :=
  (p_class.1 / (p_class.1 + p_class.2), p_class.2 / (p_class.1 + p_class.2))

/-- Association-list lookup success yields a member of the list. -/
lemma mem_of_lookup_eq_some {α β : Type} [BEq α] [LawfulBEq α] {w : α}
    {l : List (α × β)} {v : β} (h : List.lookup w l = some v) : (w, v) ∈ l := by
  induction l with
  | nil => simp [List.lookup] at h
  | cons e rest ih =>
    rw [List.lookup] at h
    cases hk : (w == e.1) with
    | true =>
      rw [hk] at h
      simp only [Option.some.injEq] at h
      rw [List.mem_cons]
      left
      obtain ⟨e1, e2⟩ := e
      simp only at h
      rw [eq_of_beq hk, h]
    | false =>
      rw [hk] at h
      exact List.mem_cons_of_mem _ (ih h)

/-- Folding the classify_message step over any word list keeps both running
products nonnegative, provided every probability stored in the model is
nonnegative. -/
lemma foldl_word_prod_nonneg (wl : List (String × ℚ × ℚ))
    (hwl : ∀ e ∈ wl, 0 ≤ e.2.1 ∧ 0 ≤ e.2.2) (l : List String) (acc : ℚ × ℚ)
    (h1 : 0 ≤ acc.1) (h2 : 0 ≤ acc.2) :
    0 ≤ (l.foldl (word_prod_step wl) acc).1 ∧ 0 ≤ (l.foldl (word_prod_step wl) acc).2 := by
  induction l generalizing acc with
  | nil => exact ⟨h1, h2⟩
  | cons w rest ih =>
    rw [List.foldl_cons]
    have hp : 0 ≤ ((List.lookup w wl).getD (1, 1)).1 ∧
        0 ≤ ((List.lookup w wl).getD (1, 1)).2 := by
      cases hl : List.lookup w wl with
      | none => simp
      | some v =>
        have := hwl (w, v) (mem_of_lookup_eq_some hl)
        simpa using this
    exact ih _ (mul_nonneg h1 hp.1) (mul_nonneg h2 hp.2)

/-- Folding the classify_message step over words that are all absent from
the model leaves the accumulator unchanged. -/
lemma foldl_word_prod_unseen (wl : List (String × ℚ × ℚ)) (l : List String)
    (h : ∀ w ∈ l, List.lookup w wl = none) (acc : ℚ × ℚ) :
    l.foldl (word_prod_step wl) acc = acc := by
  induction l generalizing acc with
  | nil => rfl
  | cons w rest ih =>
    rw [List.foldl_cons]
    have hw : List.lookup w wl = none := h w (List.mem_cons_self w rest)
    have hstep : word_prod_step wl acc w = acc := by
      simp [word_prod_step, hw]
    rw [hstep]
    exact ih (fun u hu => h u (List.mem_cons_of_mem _ hu)) acc

/-- C1: for every word_counts mapping, class counts and alpha, the per-word
conditional stored by estimate_probabilities is
(n_word_ham + alpha) / smoothed_n_ham and
(n_word_spam + alpha) / smoothed_n_spam, where the smoothed class counts
are n_ham + alpha and n_spam + alpha when alpha is positive and the raw
counts otherwise, and the priors divide the very same smoothed class
counts by n_ham + n_spam + 2 * alpha. -/
theorem estimate_probabilities_per_word_conditional
    (wc : List (String × ℕ × ℕ)) (nh ns : ℕ) (α : ℚ) (w : String) (nwh nws : ℕ)
    (hmem : (w, nwh, nws) ∈ wc) :
    (w, (((nwh : ℚ) + α) / (if α > 0 then (nh : ℚ) + α else (nh : ℚ)),
         ((nws : ℚ) + α) / (if α > 0 then (ns : ℚ) + α else (ns : ℚ))))
      ∈ (estimate_probabilities wc (nh, ns) α).1
    ∧ (estimate_probabilities wc (nh, ns) α).2
      = ((if α > 0 then (nh : ℚ) + α else (nh : ℚ)) / ((nh : ℚ) + (ns : ℚ) + 2 * α),
         (if α > 0 then (ns : ℚ) + α else (ns : ℚ)) / ((nh : ℚ) + (ns : ℚ) + 2 * α)) := by
  constructor
  · simp only [estimate_probabilities]
    exact List.mem_map_of_mem _ hmem
  · rfl

/-- Witness for C1 at a concrete input. -/
theorem estimate_probabilities_per_word_conditional_witness :
    ("free", (((1 : ℚ) + 1) / (if (1 : ℚ) > 0 then (3 : ℚ) + 1 else (3 : ℚ)),
              ((2 : ℚ) + 1) / (if (1 : ℚ) > 0 then (4 : ℚ) + 1 else (4 : ℚ))))
      ∈ (estimate_probabilities [("free", (1, 2))] (3, 4) 1).1
    ∧ (estimate_probabilities [("free", (1, 2))] (3, 4) 1).2
      = ((if (1 : ℚ) > 0 then (3 : ℚ) + 1 else (3 : ℚ)) / ((3 : ℚ) + (4 : ℚ) + 2 * 1),
         (if (1 : ℚ) > 0 then (4 : ℚ) + 1 else (4 : ℚ)) / ((3 : ℚ) + (4 : ℚ) + 2 * 1)) := by
  have h := estimate_probabilities_per_word_conditional [("free", (1, 2))] 3 4 1 "free" 1 2
    (by simp)
  norm_num at h ⊢
  exact h

/-- C4: for positive alpha the class priors returned by
estimate_probabilities sum to exactly 1. -/
theorem estimate_probabilities_prior_sums_to_one
    (wc : List (String × ℕ × ℕ)) (nh ns : ℕ) (α : ℚ) (hα : 0 < α) :
    (estimate_probabilities wc (nh, ns) α).2.1
      + (estimate_probabilities wc (nh, ns) α).2.2 = 1 := by
  have hden : ((nh : ℚ) + (ns : ℚ) + 2 * α) ≠ 0 := by positivity
  simp only [estimate_probabilities, if_pos hα]
  rw [div_add_div_same]
  rw [div_eq_one_iff_eq hden]
  ring

/-- Witness for C4 at a concrete input. -/
theorem estimate_probabilities_prior_sums_to_one_witness :
    (estimate_probabilities [] (0, 0) 1).2.1
      + (estimate_probabilities [] (0, 0) 1).2.2 = 1 :=
  estimate_probabilities_prior_sums_to_one [] 0 0 1 (by norm_num)

/-- C5: predict labels a message ham exactly when its ham posterior
strictly exceeds one half, and a ham posterior of exactly one half yields
the label spam. -/
theorem predict_threshold (m : String) (info : List (String × ℚ × ℚ) × (ℚ × ℚ)) :
    (predict m info = "ham" ↔ 1 / 2 < (classify_message m info).1)
    ∧ ((classify_message m info).1 = 1 / 2 → predict m info = "spam") := by
  constructor
  · by_cases h : 1 / 2 < (classify_message m info).1
    · simp [predict, h]
    · simp [predict, h]
  · intro h
    have hnot : ¬ ((classify_message m info).1 > 1 / 2) := by
      rw [h]
      exact lt_irrefl _
    rw [predict, if_neg hnot]

/-- Witness for C5: a model whose ham posterior on the message is exactly
one half is labelled spam. -/
theorem predict_threshold_witness :
    predict "x" ([], ((1 : ℚ) / 2, 1 / 2)) = "spam" := by
  apply (predict_threshold "x" ([], ((1 : ℚ) / 2, 1 / 2))).2
  have htok : split_words (clean_msg "x") = ["x"] := by decide
  simp [classify_message, msg_word_prod, htok, word_prod_step, List.lookup]
  norm_num

/-- C2: whenever the two joint products are not both zero, and the model's
stored probabilities and priors are nonnegative, the posterior pair
returned by classify_message sums to exactly 1. -/
theorem classify_posterior_sums_to_one
    (m : String) (wl : List (String × ℚ × ℚ)) (ph ps : ℚ)
    (hwl : ∀ e ∈ wl, 0 ≤ e.2.1 ∧ 0 ≤ e.2.2) (hph : 0 ≤ ph) (hps : 0 ≤ ps)
    (hnz : ¬ ((msg_word_prod m wl).1 * ph = 0 ∧ (msg_word_prod m wl).2 * ps = 0)) :
    (classify_message m (wl, (ph, ps))).1 + (classify_message m (wl, (ph, ps))).2 = 1 := by
  have hprod : 0 ≤ (msg_word_prod m wl).1 ∧ 0 ≤ (msg_word_prod m wl).2 :=
    foldl_word_prod_nonneg wl hwl (split_words (clean_msg m)) (1, 1)
      zero_le_one zero_le_one
  have ha : 0 ≤ (msg_word_prod m wl).1 * ph := mul_nonneg hprod.1 hph
  have hb : 0 ≤ (msg_word_prod m wl).2 * ps := mul_nonneg hprod.2 hps
  have hsum : (msg_word_prod m wl).1 * ph + (msg_word_prod m wl).2 * ps ≠ 0 := by
    intro h0
    exact hnz ⟨by linarith, by linarith⟩
  simp only [classify_message]
  rw [div_add_div_same, div_self hsum]

/-- Witness for C2 at a concrete model and message. -/
theorem classify_posterior_sums_to_one_witness :
    (classify_message "hi" ([("hi", ((1 : ℚ) / 2, 1 / 4))], ((1 : ℚ) / 2, 1 / 2))).1
      + (classify_message "hi" ([("hi", ((1 : ℚ) / 2, 1 / 4))], ((1 : ℚ) / 2, 1 / 2))).2
      = 1 := by
  have htok : split_words (clean_msg "hi") = ["hi"] := by decide
  apply classify_posterior_sums_to_one
  · intro e he
    simp only [List.mem_singleton] at he
    rw [he]
    norm_num
  · norm_num
  · norm_num
  · simp [msg_word_prod, htok, word_prod_step, List.lookup]

/-- C3: a message none of whose tokens appears in the model's
word-probability mapping is classified exactly as the normalized class
prior. -/
theorem classify_unseen_words_gives_normalized_prior
    (m : String) (wl : List (String × ℚ × ℚ)) (pc : ℚ × ℚ)
    (h : ∀ w ∈ split_words (clean_msg m), List.lookup w wl = none) :
    classify_message m (wl, pc) = normalized_prior pc := by
  have hprod : msg_word_prod m wl = (1, 1) :=
    foldl_word_prod_unseen wl (split_words (clean_msg m)) h (1, 1)
  simp [classify_message, hprod, normalized_prior]

/-- Witness for C3: a two-word message sharing no word with the trained
vocabulary is classified as the normalized prior. -/
theorem classify_unseen_words_gives_normalized_prior_witness :
    classify_message "hello world" ([("win", ((2 : ℚ) / 3, 1 / 3))], ((3 : ℚ) / 5, 2 / 5))
      = normalized_prior ((3 : ℚ) / 5, 2 / 5) := by
  apply classify_unseen_words_gives_normalized_prior
  decide

/-- C10: with alpha = 0, one empty class and a nonempty word-count mapping
the per-word loop of estimate_probabilities divides by the zero class
count, although the spec precondition (one of the class counts or alpha
positive) holds; the checked embedding records the ZeroDivisionError as
none, in either symmetric configuration. -/
theorem estimate_probabilities_checked_div_by_zero
    (wc : List (String × ℕ × ℕ)) (n : ℕ) (hwc : wc ≠ []) (hn : 0 < n) :
    estimate_probabilities_checked wc (0, n) 0 = none
    ∧ estimate_probabilities_checked wc (n, 0) 0 = none := by
  obtain ⟨e, rest, rfl⟩ := List.exists_cons_of_ne_nil hwc
  have hcast : ((n : ℚ)) ≠ 0 := Nat.cast_ne_zero.mpr hn.ne'
  constructor <;>
    simp [estimate_probabilities_checked, div?, hcast, List.mapM_cons, List.mapM.loop]

/-- Witness for C10 at a concrete input satisfying the spec precondition. -/
theorem estimate_probabilities_checked_div_by_zero_witness :
    estimate_probabilities_checked [("x", (1, 0))] (0, 2) 0 = none
    ∧ estimate_probabilities_checked [("x", (1, 0))] (2, 0) 0 = none :=
  estimate_probabilities_checked_div_by_zero [("x", (1, 0))] 2 (by simp) (by norm_num)

/-- Counting a word in a message's distinct-word set yields 1 when the word
occurs in the raw token list, however many times, and 0 otherwise. -/
lemma count_split_words (m w : String) :
    (split_words m).count w = if w ∈ word_list m then 1 else 0 :=
  List.count_dedup _ _

/-- The Counter built by count_words assigns each word the number of
messages whose raw token list contains it. -/
lemma count_words_eq_filter_length (msgs : List String) (w : String) :
    count_words msgs w
      = (msgs.filter (fun m => w ∈ word_list (clean_msg m))).length := by
  induction msgs with
  | nil => rfl
  | cons m rest ih =>
    simp only [count_words, List.map_cons, List.sum_cons] at ih ⊢
    rw [count_split_words, List.filter_cons]
    by_cases hm : w ∈ word_list (clean_msg m)
    · simp [hm, ih]
      omega
    · simp [hm, ih]

/-- A word is a key of the count_words Counter exactly when some message's
raw token list contains it. -/
lemma in_vocab_iff_filter_ne_nil (msgs : List String) (w : String) :
    in_vocab msgs w = true
      ↔ (msgs.filter (fun m => w ∈ word_list (clean_msg m))).length ≠ 0 := by
  rw [ne_eq, List.length_eq_zero, List.filter_eq_nil_iff]
  simp [in_vocab, split_words, List.mem_dedup, not_forall, not_not]

/-- C6: count_words_in_ham_and_spam implements document-presence counting:
the entry a word receives is exactly the pair counting, per class, the
labelled messages whose raw token list contains the word at least once —
so a message repeating a word contributes exactly 1 to that word's count
for the message's class — and a word contained in no ham or spam message
receives no entry. -/
theorem count_words_in_ham_and_spam_presence (l : List (String × String)) (w : String) :
    count_words_in_ham_and_spam l w =
      (let nham := (((l.filter (fun am => am.1 == "ham")).map Prod.snd).filter
          (fun m => w ∈ word_list (clean_msg m))).length
       let nspam := (((l.filter (fun am => am.1 == "spam")).map Prod.snd).filter
          (fun m => w ∈ word_list (clean_msg m))).length
       if nham = 0 ∧ nspam = 0 then none else some (nham, nspam)) := by
  simp only [count_words_in_ham_and_spam]
  rw [count_words_eq_filter_length, count_words_eq_filter_length]
  by_cases h1 : in_vocab ((l.filter (fun am => am.1 == "ham")).map Prod.snd) w = true
  · have hn1 := (in_vocab_iff_filter_ne_nil _ w).mp h1
    rw [h1, Bool.true_or, if_pos rfl, if_neg (fun hc => hn1 hc.1)]
  · rw [Bool.not_eq_true] at h1
    by_cases h2 : in_vocab ((l.filter (fun am => am.1 == "spam")).map Prod.snd) w = true
    · have hn2 := (in_vocab_iff_filter_ne_nil _ w).mp h2
      rw [h1, Bool.false_or, if_pos h2, if_neg (fun hc => hn2 hc.2)]
    · rw [Bool.not_eq_true] at h2
      have hz1 : (((l.filter (fun am => am.1 == "ham")).map Prod.snd).filter
          (fun m => w ∈ word_list (clean_msg m))).length = 0 := by
        by_contra hne
        simp [(in_vocab_iff_filter_ne_nil _ w).mpr hne] at h1
      have hz2 : (((l.filter (fun am => am.1 == "spam")).map Prod.snd).filter
          (fun m => w ∈ word_list (clean_msg m))).length = 0 := by
        by_contra hne
        simp [(in_vocab_iff_filter_ne_nil _ w).mpr hne] at h2
      rw [h1, h2, Bool.false_or, if_neg Bool.false_ne_true, if_pos ⟨hz1, hz2⟩]

/-- C7: an entry whose label is neither ham nor spam contributes to neither
the class counts nor any word count; both counting functions are total, so
no error is possible. -/
theorem other_labels_ignored (xs ys : List (String × String)) (lab msg w : String)
    (h1 : lab ≠ "ham") (h2 : lab ≠ "spam") :
    count_ham_and_spam (xs ++ (lab, msg) :: ys) = count_ham_and_spam (xs ++ ys)
    ∧ count_words_in_ham_and_spam (xs ++ (lab, msg) :: ys) w
      = count_words_in_ham_and_spam (xs ++ ys) w := by
  have hham : (xs ++ (lab, msg) :: ys).filter (fun am => am.1 == "ham")
      = (xs ++ ys).filter (fun am => am.1 == "ham") := by
    simp [List.filter_append, List.filter_cons, h1]
  have hspam : (xs ++ (lab, msg) :: ys).filter (fun am => am.1 == "spam")
      = (xs ++ ys).filter (fun am => am.1 == "spam") := by
    simp [List.filter_append, List.filter_cons, h2]
  constructor
  · rw [count_ham_and_spam, count_ham_and_spam, hham, hspam]
  · rw [count_words_in_ham_and_spam, count_words_in_ham_and_spam, hham, hspam]

/-- Witness for C7: an unknown-labelled message changes neither count. -/
theorem other_labels_ignored_witness :
    count_ham_and_spam [("ham", "hi"), ("unknown", "free"), ("spam", "win")]
      = count_ham_and_spam [("ham", "hi"), ("spam", "win")]
    ∧ count_words_in_ham_and_spam [("ham", "hi"), ("unknown", "free"), ("spam", "win")] "free"
      = count_words_in_ham_and_spam [("ham", "hi"), ("spam", "win")] "free" :=
  other_labels_ignored [("ham", "hi")] [("spam", "win")] "unknown" "free" "free"
    (by decide) (by decide)

/-- C8 divergence record: for a fitted model the value predict_word_proba
assigns to a vocabulary word differs from the conditional probability of
the word given the class stored by estimate_probabilities. -/
theorem predict_word_proba_not_model_conditional :
    List.lookup "hello" (predict_word_proba [("hello", (1, 0))] 1 "hello")
      ≠ List.lookup "hello" ((estimate_probabilities [("hello", (1, 0))] (3, 1) 1).1) := by
  have htok : split_words (clean_msg "hello") = ["hello"] := by decide
  simp [predict_word_proba, estimate_probabilities, htok, List.lookup]

/-- C8 amended: predict_word_proba keeps exactly the message words present
in the fitted word-count dictionary, and maps each to the pair of smoothed
per-word class proportions, dividing each smoothed per-class word count by
the smoothed word total rather than by a class count. -/
theorem predict_word_proba_characterization
    (wc : List (String × ℕ × ℕ)) (α : ℚ) (m w : String) (v : ℚ × ℚ) :
    (w, v) ∈ predict_word_proba wc α m ↔
      w ∈ split_words (clean_msg m) ∧
        ∃ nw : ℕ × ℕ, List.lookup w wc = some nw ∧
          v = ((if α > 0 then (nw.1 : ℚ) + α else (nw.1 : ℚ))
                / ((if α > 0 then (nw.1 : ℚ) + α else (nw.1 : ℚ))
                    + (if α > 0 then (nw.2 : ℚ) + α else (nw.2 : ℚ))),
               (if α > 0 then (nw.2 : ℚ) + α else (nw.2 : ℚ))
                / ((if α > 0 then (nw.1 : ℚ) + α else (nw.1 : ℚ))
                    + (if α > 0 then (nw.2 : ℚ) + α else (nw.2 : ℚ)))) := by
  rw [predict_word_proba, List.mem_filterMap]
  constructor
  · rintro ⟨u, hu, hf⟩
    cases hlu : List.lookup u wc with
    | none =>
      rw [hlu] at hf
      simp at hf
    | some nw =>
      rw [hlu] at hf
      simp only [Option.some.injEq, Prod.mk.injEq] at hf
      obtain ⟨rfl, rfl⟩ := hf
      exact ⟨hu, nw, hlu, rfl⟩
  · rintro ⟨hw, nw, hlu, rfl⟩
    refine ⟨w, hw, ?_⟩
    rw [hlu]

/-- C9 divergence record: on a line whose body contains an embedded tab,
split_line removes the tab from the body instead of replacing it with a
space as the claim and the function docstring state. -/
theorem split_line_removes_embedded_tabs :
    split_line "ham\ta\tb" = some ("ham", "ab")
    ∧ split_line "ham\ta\tb" ≠ some ("ham", "a b") := by
  constructor
  · decide
  · decide

end SpamDetector
